import Mathlib

/-!
Verification development for the dynamic refresh-and-select layer of the
log-shipping agent: the endpoint picker (AccessPicker), the policy store
(ACLManager) and the path-discovery cache (GlobSearcher), together with the
server-record parser.  Go maps are embedded as association lists, Go slices
as lists, the int32 cursor as an integer reduced modulo 2^32 where overflow
matters, and fallible external collaborators (the regexp engine, the
filesystem, the HTTP fetch) as explicit function parameters returning
Option values.
-/

/-! ## Policy store (ACLManager) -/

/-- A label set: a partial map from label name to label value.  Indexing a
Go map yields the zero value, so where the source indexes the map directly
an absent label reads as the empty string. -/
abbrev LabelSet := String → Option String

/-- One filter case of the policy document (source: FilterCase). -/
structure FilterCase where
  Key : String
  Value : String
  ExcludePath : List String
  Suffix : List String
  deriving DecidableEq, BEq

/-- The policy document (source: ACLConfig).  The allow and block lists are
Go maps from label name to regex source; they are embedded as association
lists (no result below depends on iteration order). -/
structure ACLConfig where
  AllowList : List (String × String)
  BlockList : List (String × String)
  FilterOptions : List FilterCase
  DefaultFilterOption : FilterCase
  TailingCompressed : Bool
  ArchivedFormat : List String
  deriving DecidableEq, BEq

/-- The zero value ACLConfig the manager starts from (source: NewACLManager
allocates an empty ACLConfig). -/
def emptyACLConfig : ACLConfig :=
  { AllowList := []
    BlockList := []
    FilterOptions := []
    DefaultFilterOption := { Key := "", Value := "", ExcludePath := [], Suffix := [] }
    TailingCompressed := false
    ArchivedFormat := [] }

/-- One allow- or block-list entry matched: the source runs
regexp.MatchString(v, labels[l]) and acts only when err == nil and matched.
The Go regexp engine is an external collaborator, so matching is a
parameter: some b models a call returning (b, nil), none models a call
returning a non-nil error. -/
def entryMatched (matchStr : String → String → Option Bool) (labels : LabelSet)
    (p : String × String) : Bool :=
  match matchStr p.2 ((labels p.1).getD "") with
  | some b => b
  | none => false

/-- ACLManager.IsAllow, translated from the source: allow starts true; a
non-nil non-empty allow list resets it to false and every matching
allow-list entry sets it back to true; afterwards every matching block-list
entry forces it to false. -/
def IsAllow (matchStr : String → String → Option Bool) (cfg : ACLConfig)
    (labels : LabelSet) : Bool :=
  let allow := true
  let allow :=
    if cfg.AllowList ≠ [] then
      cfg.AllowList.foldl (fun a p => if entryMatched matchStr labels p then true else a) false
    else allow
  cfg.BlockList.foldl (fun a p => if entryMatched matchStr labels p then false else a) allow

/-- A filter case fires for a label set: the key label is present in the
label set and its value matches the case regex with no regexp error
(source: the loop body of ACLManager.GetFilterOption). -/
def caseMatched (matchStr : String → String → Option Bool) (labels : LabelSet)
    (f : FilterCase) : Bool :=
  match labels f.Key with
  | some v =>
    match matchStr f.Value v with
    | some true => true
    | _ => false
  | none => false

/-- The loop of ACLManager.GetFilterOption: walk the configured filter
cases in order and return the first that fires; fall through to the
default. -/
def GetFilterOptionLoop (matchStr : String → String → Option Bool) (labels : LabelSet)
    (dflt : FilterCase) : List FilterCase → FilterCase
  | [] => dflt
  | f :: fs =>
    match labels f.Key with
    | some v =>
      match matchStr f.Value v with
      | some true => f
      | _ => GetFilterOptionLoop matchStr labels dflt fs
    | none => GetFilterOptionLoop matchStr labels dflt fs

/-- ACLManager.GetFilterOption, translated from the source. -/
def GetFilterOption (matchStr : String → String → Option Bool) (cfg : ACLConfig)
    (labels : LabelSet) : FilterCase :=
  GetFilterOptionLoop matchStr labels cfg.DefaultFilterOption cfg.FilterOptions

/-- A Go value as seen by reflect.DeepEqual in ACLManager.syncOnce: either
an ACLConfig struct value, or a pointer (with its address) to an ACLConfig.
The source compares the freshly parsed struct value cfg against the field
m.cfg, whose type is a pointer to ACLConfig. -/
inductive GoValue where
  | structVal (c : ACLConfig)
  | ptrVal (addr : Nat) (c : ACLConfig)

/-- reflect.DeepEqual: per its documentation, values of distinct dynamic
types are never deeply equal; two struct values are deeply equal iff their
fields are; two pointers are deeply equal iff their pointees are. -/
def deepEqual : GoValue → GoValue → Bool
  | .structVal a, .structVal b => a == b
  | .ptrVal _ a, .ptrVal _ b => a == b
  | _, _ => false

/-- The manager's hot state: the address of the active ACLConfig allocation
and the config stored there. -/
structure ACLManagerState where
  cfgAddr : Nat
  cfg : ACLConfig
  deriving DecidableEq

/-- Outcome of the read-and-parse prefix of syncOnce: the file read failed,
the JSON parse failed, or a config was parsed. -/
inductive ReadOutcome where
  | readErr
  | parseErr
  | parsed (cfg : ACLConfig)

/-- ACLManager.syncOnce, translated from the source: on read or parse
failure keep the previous state; otherwise compare the parsed struct value
against the active config pointer with reflect.DeepEqual and, unless they
are deeply equal, swap in the freshly allocated config (freshAddr is the
address of this cycle's new allocation). -/
def syncOnce (st : ACLManagerState) (r : ReadOutcome) (freshAddr : Nat) : ACLManagerState :=
  match r with
  | .readErr => st
  | .parseErr => st
  | .parsed cfg =>
    if deepEqual (.structVal cfg) (.ptrVal st.cfgAddr st.cfg) then st
    else { cfgAddr := freshAddr, cfg := cfg }

/-! ## Path-discovery cache (GlobSearcher) -/

/-- A cached search result (source: searchResult).  The error is embedded
as an optional message. -/
structure SearchResult where
  matchList : List String
  err : Option String
  deriving DecidableEq, BEq

/-- A queued computation task (source: taskInfo). -/
structure TaskInfo where
  Path : String
  ExcludePath : List String
  SuffixFilter : List String
  deriving DecidableEq, BEq

/-- sync.Map.Load on an association list. -/
def lookupA {α : Type} (k : String) (m : List (String × α)) : Option α :=
  (m.find? (fun kv => kv.1 == k)).map (fun kv => kv.2)

/-- sync.Map.Store on an association list. -/
def storeA {α : Type} (k : String) (v : α) (m : List (String × α)) : List (String × α) :=
  (k, v) :: m.filter (fun kv => !(kv.1 == k))

/-- sync.Map.Delete on an association list. -/
def deleteA {α : Type} (k : String) (m : List (String × α)) : List (String × α) :=
  m.filter (fun kv => !(kv.1 == k))

/-- The searcher state: the two sync.Map tables and the task queue (the
channel contents, oldest first). -/
structure GlobSearcherState where
  inProcess : List (String × TaskInfo)
  result : List (String × SearchResult)
  queue : List TaskInfo
  deriving DecidableEq

/-- GlobSearcher.Search, translated from the source: if no computation for
the pattern is in flight, mark it in flight (the source stores a taskInfo
whose Path field is left zero) and enqueue a task; then return whatever the
result cache currently holds for the pattern, or an empty list if nothing
is cached yet.  Returns the reply to the caller together with the new
state. -/
def Search (st : GlobSearcherState) (path : String) (ExcludePath SuffixFilter : List String) :
    (List String × Option String) × GlobSearcherState :=
  let st :=
    if (lookupA path st.inProcess).isSome then st
    else
      { st with
        inProcess :=
          storeA path { Path := "", ExcludePath := ExcludePath, SuffixFilter := SuffixFilter }
            st.inProcess
        queue :=
          st.queue ++ [{ Path := path, ExcludePath := ExcludePath, SuffixFilter := SuffixFilter }] }
  match lookupA path st.result with
  | none => (([], none), st)
  | some mr => ((mr.matchList, mr.err), st)

/-- What a Search call replies for a pattern, given the current result
cache: the cached matchList and error, or an empty list and nil error when
nothing is cached. -/
def resultFor (st : GlobSearcherState) (path : String) : List String × Option String :=
  match lookupA path st.result with
  | none => ([], none)
  | some mr => (mr.matchList, mr.err)

/-- GlobSearcher.dropExcludedPath, translated from the source: keep a
candidate unless some exclusion pattern matches it via path.Match with no
error; always return a nil error.  path.Match is an external collaborator
and is passed as a parameter (some b models (b, nil), none a pattern
error). -/
def dropExcludedPath (pmatch : String → String → Option Bool)
    (matchList excludePath : List String) : List String × Option String :=
  (matchList.filter (fun m => !(excludePath.any (fun ep => pmatch ep m == some true))), none)

/-- Go strings.HasSuffix: s ends with sfx when sfx is no longer than s and
the trailing slice of s of the length of sfx equals sfx. -/
def hasSuffix (s sfx : String) : Bool :=
  decide (sfx.data.length ≤ s.data.length) &&
    s.data.drop (s.data.length - sfx.data.length) == sfx.data

/-- GlobSearcher.filterSuffix, translated from the source: with no suffix
filters configured keep everything, otherwise keep the candidates ending
with at least one configured suffix. -/
def filterSuffix (matchList suffixFilterArg : List String) : List String :=
  if suffixFilterArg.isEmpty then matchList
  else matchList.filter (fun p => suffixFilterArg.any (fun sfx => hasSuffix p sfx))

/-- GlobSearcher.dropNoUpdatePath, translated from the source: drop a
candidate whose stat fails, and keep it only when its modification time
plus the staleness period is after now.  The filesystem is external:
statModTime gives the modification time, none modelling a stat error. -/
def dropNoUpdatePath (statModTime : String → Option Int) (now period : Int)
    (matched : List String) : List String :=
  matched.filter (fun p =>
    match statModTime p with
    | none => false
    | some t => decide (now < t + period))

/-- One iteration of GlobSearcher.searchTask, translated from the source:
dequeue a task, run the glob expansion (doublestar.Glob is external: glob
returns its match list and optional error), then — exactly as the source's
chained assignments do — overwrite both the match list and the error with the
output of dropExcludedPath, filter suffixes, prune stale files, store the
result for the pattern and clear its in-flight marker. -/
def searchTask (pmatch : String → String → Option Bool)
    (glob : String → List String × Option String) (statModTime : String → Option Int)
    (now period : Int) (st : GlobSearcherState) : GlobSearcherState :=
  match st.queue with
  | [] => st
  | ti :: rest =>
    let mr0 := glob ti.Path
    let dropped := dropExcludedPath pmatch mr0.1 ti.ExcludePath
    let afterSuffix := filterSuffix dropped.1 ti.SuffixFilter
    let finalMatches := dropNoUpdatePath statModTime now period afterSuffix
    { inProcess := deleteA ti.Path st.inProcess
      result := storeA ti.Path { matchList := finalMatches, err := dropped.2 } st.result
      queue := rest }

/-- Modelled from the spec: plain shell-style glob match of a pattern
against a full path (Go path.Match restricted to literal characters and the
metacharacters star and question mark, which do not match the path
separator; character ranges are not used by any claim).  Fueled so that
concrete instances evaluate by kernel reduction; each step shortens
pattern plus name, so the fuel used below never runs out. -/
def globMatchAux : Nat → List Char → List Char → Bool
  | 0, _, _ => false
  | _ + 1, [], [] => true
  | _ + 1, [], _ :: _ => false
  | fuel + 1, '*' :: ps, n =>
    globMatchAux fuel ps n ||
      (match n with
       | c :: ns => (c != '/') && globMatchAux fuel ('*' :: ps) ns
       | [] => false)
  | fuel + 1, '?' :: ps, c :: ns => (c != '/') && globMatchAux fuel ps ns
  | _ + 1, '?' :: _, [] => false
  | fuel + 1, p :: ps, c :: ns => (p == c) && globMatchAux fuel ps ns
  | _ + 1, _ :: _, [] => false

/-- Shell-style glob match on strings. -/
def globMatch (p n : String) : Bool :=
  globMatchAux (p.data.length + n.data.length + 1) p.data n.data

/-- The glob matcher in the calling convention of dropExcludedPath: this
restricted pattern language never yields a pattern-error. -/
def globMatchO (p n : String) : Option Bool :=
  some (globMatch p n)

/-! ## Endpoint picker (AccessPicker) -/

/-- Reduce an integer to the int32 value Go arithmetic would produce. -/
def wrap32 (x : Int) : Int :=
  (x + 2 ^ 31) % 2 ^ 32 - 2 ^ 31

/-- AccessPicker.Pick, translated from the source: on an empty endpoint
list return the empty string at once; otherwise increment the shared
cursor (int32 wrap-around), reduce it with Go's truncated remainder by the
list length, store the reduced value back, and return the endpoint at that
index.  Returns the picked endpoint and the stored cursor. -/
def Pick (l : List String) (idx : Int) : String × Int :=
  if l.length = 0 then ("", idx)
  else
    let next := Int.tmod (wrap32 (idx + 1)) (Int.ofNat l.length)
    (l.getD next.toNat "", next)

/-- N sequential Pick calls against a stable list: the picked endpoints in
order, and the final cursor. -/
def pickSeq (l : List String) (idx : Int) : Nat → List String × Int
  | 0 => ([], idx)
  | n + 1 =>
    let p := Pick l idx
    let r := pickSeq l p.2 n
    (p.1 :: r.1, r.2)

/-- Shared state of two threads running Pick concurrently: the shared
cursor, each thread's pending fetch-add result awaiting its store, and the
endpoints returned so far in completion order. -/
structure ConcState where
  idx : Int
  pendA : Option Int
  pendB : Option Int
  outs : List String
  deriving DecidableEq

/-- The atomic shared-cursor accesses a Pick call performs, per thread:
Pick on a fixed non-empty list is the fetch-add idx.Add(1) followed by the
store idx.Store(next); the two are separate atomic operations. -/
inductive ConcAct where
  | addA
  | storeA
  | addB
  | storeB
  deriving DecidableEq, BEq

/-- One atomic step of the two-thread interleaving semantics of Pick on a
fixed non-empty list l: an add step performs idx.Add(1) (int32 wrap) and
records the result as the thread's pending value; a store step reduces the
thread's pending value modulo the list length, stores it to the shared
cursor, and emits the endpoint at that index (completing that thread's
Pick call).  A store with no pending add is a no-op. -/
def concStep (l : List String) (st : ConcState) : ConcAct → ConcState
  | .addA =>
    let v := wrap32 (st.idx + 1)
    { st with idx := v, pendA := some v }
  | .storeA =>
    match st.pendA with
    | none => st
    | some v =>
      let next := Int.tmod v (Int.ofNat l.length)
      { st with idx := next, pendA := none, outs := st.outs ++ [l.getD next.toNat ""] }
  | .addB =>
    let v := wrap32 (st.idx + 1)
    { st with idx := v, pendB := some v }
  | .storeB =>
    match st.pendB with
    | none => st
    | some v =>
      let next := Int.tmod v (Int.ofNat l.length)
      { st with idx := next, pendB := none, outs := st.outs ++ [l.getD next.toNat ""] }

/-- Run a schedule of atomic steps from a starting cursor. -/
def concRun (l : List String) (c : Int) (acts : List ConcAct) : ConcState :=
  acts.foldl (concStep l) { idx := c, pendA := none, pendB := none, outs := [] }

/-- The subsequence of a schedule executed by thread A. -/
def actsOfA (acts : List ConcAct) : List ConcAct :=
  acts.filter (fun a => a == .addA || a == .storeA)

/-- The subsequence of a schedule executed by thread B. -/
def actsOfB (acts : List ConcAct) : List ConcAct :=
  acts.filter (fun a => a == .addB || a == .storeB)

/-! ## Server-record parser (AccessPicker.parseAccessServerInfo) -/

/-- All ways to split a character list as pre ++ lit :: post where pre may
not contain a newline (a lazy dot-star group followed by the literal lit),
ordered by ascending length of pre — the order in which a leftmost-first
regex engine tries them. -/
def splitsOn (lit : Char) : List Char → List (List Char × List Char)
  | [] => []
  | c :: rest =>
    (if c = lit then [(([] : List Char), rest)] else []) ++
      (if c = '\n' then [] else (splitsOn lit rest).map (fun pr => (c :: pr.1, pr.2)))

/-- Match the fixed server-record pattern (lazy group, colon, lazy group,
hash, lazy group, pipe, greedy dot-star) at the start of the given text,
with leftmost-first backtracking order; yields (ip, port, weight, idc). -/
def matchServerInfoAt (cs : List Char) : Option (String × String × String × String) :=
  (splitsOn ':' cs).findSome? fun ipr =>
    (splitsOn '#' ipr.2).findSome? fun portr =>
      (splitsOn '|' portr.2).findSome? fun wr =>
        some (String.mk ipr.1, String.mk portr.1, String.mk wr.1,
          String.mk (wr.2.takeWhile (fun c => c != '\n')))

/-- Find the leftmost match of the server-record pattern in the text: try
each start position from the left. -/
def matchServerInfoFrom : List Char → Option (String × String × String × String)
  | [] => none
  | c :: rest =>
    match matchServerInfoAt (c :: rest) with
    | some r => some r
    | none => matchServerInfoFrom rest

/-- FindStringSubmatch for the fixed serverInfoPattern: none when the
record does not match; otherwise the five-element submatch list (whole
match, ip, port, weight, idc), as the Go regexp engine returns for this
four-group pattern. -/
def findStringSubmatch (s : String) : Option (List String) :=
  match matchServerInfoFrom s.data with
  | none => none
  | some (ip, port, w, idc) =>
    some [ip ++ ":" ++ port ++ "#" ++ w ++ "|" ++ idc, ip, port, w, idc]

/-- The first source variant of AccessPicker.parseAccessServerInfo: if the
submatch list has fewer than five entries return three empty strings,
otherwise return entries 1, 2 and 4.  A nil slice is embedded as the empty
list. -/
def parseAccessServerInfoV1 (s : String) : String × String × String :=
  let matchList := (findStringSubmatch s).getD []
  if matchList.length < 5 then ("", "", "")
  else (matchList.getD 1 "", matchList.getD 2 "", matchList.getD 4 "")

/-- The second source variant of AccessPicker.parseAccessServerInfo: start
from three empty strings and iterate over the submatch indices, picking
positions 1, 2 and 4. -/
def parseAccessServerInfoV2 (s : String) : String × String × String :=
  let matchList := (findStringSubmatch s).getD []
  matchList.enum.foldl
    (fun acc im =>
      if im.1 = 1 then (im.2, acc.2.1, acc.2.2)
      else if im.1 = 2 then (acc.1, im.2, acc.2.2)
      else if im.1 = 4 then (acc.1, acc.2.1, im.2)
      else acc)
    ("", "", "")

/-! ## Helper lemmas -/

theorem foldl_if_true_eq {α : Type} (P : α → Bool) (l : List α) (init : Bool) :
    l.foldl (fun a p => if P p then true else a) init = (init || l.any P) := by
  induction l generalizing init with
  | nil => simp
  | cons x xs ih =>
    rw [List.foldl_cons, ih, List.any_cons]
    cases hP : P x <;> simp [hP]

theorem foldl_if_false_eq {α : Type} (P : α → Bool) (l : List α) (init : Bool) :
    l.foldl (fun a p => if P p then false else a) init = (init && !l.any P) := by
  induction l generalizing init with
  | nil => simp
  | cons x xs ih =>
    rw [List.foldl_cons, ih, List.any_cons]
    cases hP : P x <;> simp [hP]

theorem IsAllow_eq (matchStr : String → String → Option Bool) (cfg : ACLConfig)
    (labels : LabelSet) :
    IsAllow matchStr cfg labels =
      ((if cfg.AllowList = [] then true
        else cfg.AllowList.any (entryMatched matchStr labels)) &&
        !(cfg.BlockList.any (entryMatched matchStr labels))) := by
  unfold IsAllow
  rw [foldl_if_false_eq, foldl_if_true_eq]
  by_cases h : cfg.AllowList = [] <;> simp [h]

theorem entryMatched_eq_true (matchStr : String → String → Option Bool) (labels : LabelSet)
    (p : String × String) :
    entryMatched matchStr labels p = true ↔
      matchStr p.2 ((labels p.1).getD "") = some true := by
  unfold entryMatched
  rcases h : matchStr p.2 ((labels p.1).getD "") with _ | b
  · simp [h]
  · cases b <;> simp [h]

/-! ## C4 -/

/-- C4: for every matcher, policy document and label set, IsAllow is true
by default; a non-empty allow list flips the default to false and requires
the label set to match at least one allow-list regex (disjunction over
entries); and independently of the allow-list outcome, a label set
matching any block-list regex is denied — in particular, labels matching
both an allow-list and a block-list entry yield false. -/
theorem isAllow_allow_block_semantics (matchStr : String → String → Option Bool)
    (cfg : ACLConfig) (labels : LabelSet) :
    IsAllow matchStr cfg labels = true ↔
      ((cfg.AllowList = [] ∨
          ∃ p ∈ cfg.AllowList, matchStr p.2 ((labels p.1).getD "") = some true) ∧
        ∀ p ∈ cfg.BlockList, matchStr p.2 ((labels p.1).getD "") ≠ some true) := by
  rw [IsAllow_eq]
  by_cases h : cfg.AllowList = [] <;>
    simp [h, List.any_eq_true, entryMatched_eq_true]

/-! ## C5 -/

theorem GetFilterOptionLoop_eq (matchStr : String → String → Option Bool)
    (labels : LabelSet) (dflt : FilterCase) (l : List FilterCase) :
    GetFilterOptionLoop matchStr labels dflt l =
      (l.find? (caseMatched matchStr labels)).getD dflt := by
  induction l with
  | nil => rfl
  | cons f fs ih =>
    rcases hk : labels f.Key with _ | v
    · simp [GetFilterOptionLoop, List.find?_cons, caseMatched, hk, ih]
    · rcases hm : matchStr f.Value v with _ | b
      · simp [GetFilterOptionLoop, List.find?_cons, caseMatched, hk, hm, ih]
      · cases b <;> simp [GetFilterOptionLoop, List.find?_cons, caseMatched, hk, hm, ih]

/-- C5: GetFilterOption walks the configured filter cases in order and
returns the first whose key label is present and whose value matches the
case regex; with two matching cases the earlier-configured one wins, and
with no matching case the configured default filter case is returned. -/
theorem getFilterOption_first_match (matchStr : String → String → Option Bool)
    (cfg : ACLConfig) (labels : LabelSet) :
    GetFilterOption matchStr cfg labels =
        (cfg.FilterOptions.find? (caseMatched matchStr labels)).getD
          cfg.DefaultFilterOption ∧
      (∀ pre f post, cfg.FilterOptions = pre ++ f :: post →
        caseMatched matchStr labels f = true →
        (∀ g ∈ pre, caseMatched matchStr labels g = false) →
        GetFilterOption matchStr cfg labels = f) ∧
      ((∀ f ∈ cfg.FilterOptions, caseMatched matchStr labels f = false) →
        GetFilterOption matchStr cfg labels = cfg.DefaultFilterOption) := by
  refine ⟨GetFilterOptionLoop_eq matchStr labels cfg.DefaultFilterOption cfg.FilterOptions,
    ?_, ?_⟩
  · intro pre f post hsplit hf hpre
    rw [GetFilterOption, GetFilterOptionLoop_eq, hsplit, List.find?_append]
    have hpre' : pre.find? (caseMatched matchStr labels) = none :=
      List.find?_eq_none.mpr (by intro x hx; simp [hpre x hx])
    simp [hpre', List.find?_cons, hf]
  · intro hall
    rw [GetFilterOption, GetFilterOptionLoop_eq]
    have hnone : cfg.FilterOptions.find? (caseMatched matchStr labels) = none :=
      List.find?_eq_none.mpr (by intro x hx; simp [hall x hx])
    simp [hnone]

/-- Witness for C5 at a concrete policy: two cases match the label set and
the first configured one is returned; on a label set matching no case the
default is returned. -/
theorem getFilterOption_first_match_witness :
    GetFilterOption (fun v s => some (v == s))
        { emptyACLConfig with
          FilterOptions :=
            [{ Key := "job", Value := "a", ExcludePath := ["e1"], Suffix := [".log"] },
             { Key := "job", Value := "a", ExcludePath := ["e2"], Suffix := [".txt"] }] }
        (fun k => if k == "job" then some "a" else none) =
      { Key := "job", Value := "a", ExcludePath := ["e1"], Suffix := [".log"] } ∧
    GetFilterOption (fun v s => some (v == s))
        { emptyACLConfig with
          FilterOptions :=
            [{ Key := "job", Value := "a", ExcludePath := ["e1"], Suffix := [".log"] }] }
        (fun _ => none) =
      emptyACLConfig.DefaultFilterOption := by
  constructor
  · exact (getFilterOption_first_match (fun v s => some (v == s))
      { emptyACLConfig with
        FilterOptions :=
          [{ Key := "job", Value := "a", ExcludePath := ["e1"], Suffix := [".log"] },
           { Key := "job", Value := "a", ExcludePath := ["e2"], Suffix := [".txt"] }] }
      (fun k => if k == "job" then some "a" else none)).2.1
      [] { Key := "job", Value := "a", ExcludePath := ["e1"], Suffix := [".log"] }
      [{ Key := "job", Value := "a", ExcludePath := ["e2"], Suffix := [".txt"] }]
      rfl (by decide) (by intro g hg; cases hg)
  · exact (getFilterOption_first_match (fun v s => some (v == s))
      { emptyACLConfig with
        FilterOptions :=
          [{ Key := "job", Value := "a", ExcludePath := ["e1"], Suffix := [".log"] }] }
      (fun _ => none)).2.2 (by intro f hf; rfl)

/-! ## C9 -/

/-- C9: an allow- or block-list entry whose regex is invalid (the matcher
errors on every input) is silently skipped by IsAllow: with a non-empty
allow list all of whose entries have invalid regexes, IsAllow is false for
every label set; and removing a block-list entry whose regex is invalid
never changes the result, i.e. such an entry never forces a denial. -/
theorem isAllow_invalid_regex_entries (matchStr : String → String → Option Bool)
    (cfg : ACLConfig) (labels : LabelSet) :
    (cfg.AllowList ≠ [] →
        (∀ p ∈ cfg.AllowList, ∀ s, matchStr p.2 s = none) →
        IsAllow matchStr cfg labels = false) ∧
      (∀ bl1 bl2 lname v, cfg.BlockList = bl1 ++ (lname, v) :: bl2 →
        (∀ s, matchStr v s = none) →
        IsAllow matchStr cfg labels =
          IsAllow matchStr { cfg with BlockList := bl1 ++ bl2 } labels) := by
  constructor
  · intro hne hinv
    rw [IsAllow_eq]
    have hany : cfg.AllowList.any (entryMatched matchStr labels) = false := by
      rw [List.any_eq_false]
      intro p hp
      simp [entryMatched, hinv p hp]
    simp [hne, hany]
  · intro bl1 bl2 lname v hbl hinv
    rw [IsAllow_eq, IsAllow_eq]
    have hmid : entryMatched matchStr labels (lname, v) = false := by
      simp [entryMatched, hinv]
    simp [hbl, List.any_append, List.any_cons, hmid]

/-- Witness for C9: with the single allow-list and block-list entry both
carrying an always-erroring regex, IsAllow is false, and dropping the
block-list entry does not change the result. -/
theorem isAllow_invalid_regex_entries_witness :
    IsAllow (fun _ _ => none)
        { emptyACLConfig with AllowList := [("job", "(")], BlockList := [("job", "(")] }
        (fun _ => some "x") = false ∧
      IsAllow (fun _ _ => none)
          { emptyACLConfig with AllowList := [("job", "(")], BlockList := [("job", "(")] }
          (fun _ => some "x") =
        IsAllow (fun _ _ => none)
          { emptyACLConfig with AllowList := [("job", "(")], BlockList := [] }
          (fun _ => some "x") := by
  constructor
  · exact (isAllow_invalid_regex_entries (fun _ _ => none)
      { emptyACLConfig with AllowList := [("job", "(")], BlockList := [("job", "(")] }
      (fun _ => some "x")).1 (by decide) (fun p _ s => rfl)
  · exact (isAllow_invalid_regex_entries (fun _ _ => none)
      { emptyACLConfig with AllowList := [("job", "(")], BlockList := [("job", "(")] }
      (fun _ => some "x")).2 [] [] "job" "(" rfl (fun s => rfl)

/-! ## C2 -/

/-- C2: code bug in ACLManager.syncOnce — the swap is never skipped.  The
source compares the parsed ACLConfig value against the *ACLConfig pointer
with reflect.DeepEqual; values of distinct types are never deeply equal,
so every successful read-and-parse replaces the active policy pointer,
even when the parsed document is structurally identical to the active one.
Concretely, reloading the unchanged startup config still changes the
active allocation's address. -/
theorem syncOnce_always_swaps :
    (∀ st cfg freshAddr, syncOnce st (.parsed cfg) freshAddr = ⟨freshAddr, cfg⟩) ∧
      (syncOnce ⟨0, emptyACLConfig⟩ (.parsed emptyACLConfig) 1).cfgAddr = 1 ∧
      (syncOnce ⟨0, emptyACLConfig⟩ (.parsed emptyACLConfig) 1).cfgAddr ≠ 0 := by
  refine ⟨fun st cfg freshAddr => rfl, rfl, by decide⟩

/-! ## C6 -/

theorem lookupA_storeA_self {α : Type} (k : String) (v : α) (m : List (String × α)) :
    lookupA k (storeA k v m) = some v := by
  simp [lookupA, storeA, List.find?]

theorem Search_fst (st : GlobSearcherState) (p : String) (ex sf : List String) :
    (Search st p ex sf).1 = resultFor st p := by
  unfold Search resultFor
  by_cases h : (lookupA p st.inProcess).isSome <;>
    simp only [h, if_true, if_false, Bool.false_eq_true] <;>
    rcases hr : lookupA p st.result with _ | mr <;> simp [hr]

theorem Search_snd_inflight (st : GlobSearcherState) (p : String) (ex sf : List String)
    (h : (lookupA p st.inProcess).isSome = true) : (Search st p ex sf).2 = st := by
  unfold Search
  rw [if_pos h]
  rcases hr : lookupA p st.result with _ | mr <;> simp [hr]

theorem Search_snd_fresh (st : GlobSearcherState) (p : String) (ex sf : List String)
    (h : lookupA p st.inProcess = none) :
    (Search st p ex sf).2 =
      { st with
        inProcess := storeA p { Path := "", ExcludePath := ex, SuffixFilter := sf }
          st.inProcess
        queue := st.queue ++ [{ Path := p, ExcludePath := ex, SuffixFilter := sf }] } := by
  unfold Search
  rw [if_neg (by simp [h])]
  rcases hr : lookupA p
      ({ st with
        inProcess := storeA p { Path := "", ExcludePath := ex, SuffixFilter := sf }
          st.inProcess
        queue := st.queue ++
          [{ Path := p, ExcludePath := ex, SuffixFilter := sf }] } : GlobSearcherState).result
    with _ | mr <;> simp [hr]

/-- C6: discovery coalescing — while a computation for a pattern is marked
in flight, a Search for that pattern enqueues nothing and changes nothing,
simply returning whatever is cached; consequently two Search calls for the
same pattern, starting with nothing in flight and with no task completing
in between, enqueue exactly one computation task. -/
theorem search_coalesces (st : GlobSearcherState) (p : String)
    (ex sf ex2 sf2 : List String) :
    ((lookupA p st.inProcess).isSome = true →
        Search st p ex sf = (resultFor st p, st)) ∧
      (lookupA p st.inProcess = none →
        ((Search ((Search st p ex sf).2) p ex2 sf2).2).queue =
          st.queue ++ [{ Path := p, ExcludePath := ex, SuffixFilter := sf }]) := by
  constructor
  · intro h
    have h2 : (Search st p ex sf).1 = resultFor st p := Search_fst st p ex sf
    have h3 : (Search st p ex sf).2 = st := Search_snd_inflight st p ex sf h
    calc Search st p ex sf = ((Search st p ex sf).1, (Search st p ex sf).2) := rfl
      _ = (resultFor st p, st) := by rw [h2, h3]
  · intro h
    have h1 := Search_snd_fresh st p ex sf h
    have h2 : (lookupA p ((Search st p ex sf).2).inProcess).isSome = true := by
      rw [h1]
      simp [lookupA_storeA_self]
    have h3 : (Search ((Search st p ex sf).2) p ex2 sf2).2 = (Search st p ex sf).2 :=
      Search_snd_inflight ((Search st p ex sf).2) p ex2 sf2 h2
    rw [h3, h1]

/-- Witness for C6: a Search for an in-flight pattern returns the cached
result and leaves the state untouched, and two back-to-back Search calls
for a fresh pattern enqueue exactly one task. -/
theorem search_coalesces_witness :
    Search
        ⟨[("p", { Path := "", ExcludePath := [], SuffixFilter := [] })],
          [("p", { matchList := ["f1"], err := none })], []⟩ "p" ["e"] [".log"] =
      ((["f1"], none),
        ⟨[("p", { Path := "", ExcludePath := [], SuffixFilter := [] })],
          [("p", { matchList := ["f1"], err := none })], []⟩) ∧
      ((Search ((Search ⟨[], [], []⟩ "p" ["e"] [".log"]).2) "p" [] []).2).queue =
        [] ++ [{ Path := "p", ExcludePath := ["e"], SuffixFilter := [".log"] }] := by
  constructor
  · exact (search_coalesces
      ⟨[("p", { Path := "", ExcludePath := [], SuffixFilter := [] })],
        [("p", { matchList := ["f1"], err := none })], []⟩ "p" ["e"] [".log"] [] []).1
      (by decide)
  · exact (search_coalesces ⟨[], [], []⟩ "p" ["e"] [".log"] [] []).2 (by decide)

/-! ## C3 -/

/-- C3 counterexample: run the queued task for a pattern whose glob
expansion fails with an error.  The subsequent Search for that pattern
returns an empty list and a nil error — not the glob error the claim says
is recorded — because the chained assignment in searchTask overwrites the
glob error with dropExcludedPath's always-nil error. -/
theorem searchTask_glob_error_cex :
    (Search
        (searchTask (fun _ _ => some false) (fun _ => ([], some "bad glob"))
          (fun _ => none) 0 1800
          ⟨[("p", { Path := "", ExcludePath := [], SuffixFilter := [] })], [],
            [{ Path := "p", ExcludePath := [], SuffixFilter := [] }]⟩)
        "p" [] []).1 = ([], none) ∧
      (Search
          (searchTask (fun _ _ => some false) (fun _ => ([], some "bad glob"))
            (fun _ => none) 0 1800
            ⟨[("p", { Path := "", ExcludePath := [], SuffixFilter := [] })], [],
              [{ Path := "p", ExcludePath := [], SuffixFilter := [] }]⟩)
          "p" [] []).1.2 ≠ some "bad glob" := by
  constructor
  · rfl
  · decide

/-- C3 (amended): completing a task never records an error.  The error
taken from the glob expansion is overwritten by the exclusion stage, whose
error is always nil, so the cached result for the pattern holds the
filtered (possibly empty) match list and no error, and a subsequent Search
for the pattern returns that list with a nil error — even when the glob
expansion failed. -/
theorem searchTask_discards_glob_error (pmatch : String → String → Option Bool)
    (glob : String → List String × Option String) (statModTime : String → Option Int)
    (now period : Int) (st : GlobSearcherState) (ti : TaskInfo) (rest : List TaskInfo)
    (hq : st.queue = ti :: rest) :
    lookupA ti.Path (searchTask pmatch glob statModTime now period st).result =
        some
          { matchList :=
              dropNoUpdatePath statModTime now period
                (filterSuffix (dropExcludedPath pmatch (glob ti.Path).1 ti.ExcludePath).1
                  ti.SuffixFilter)
            err := none } ∧
      ∀ ex sf,
        (Search (searchTask pmatch glob statModTime now period st) ti.Path ex sf).1 =
          (dropNoUpdatePath statModTime now period
            (filterSuffix (dropExcludedPath pmatch (glob ti.Path).1 ti.ExcludePath).1
              ti.SuffixFilter), none) := by
  have hstep :
      searchTask pmatch glob statModTime now period st =
        { inProcess := deleteA ti.Path st.inProcess
          result :=
            storeA ti.Path
              { matchList :=
                  dropNoUpdatePath statModTime now period
                    (filterSuffix
                      (dropExcludedPath pmatch (glob ti.Path).1 ti.ExcludePath).1
                      ti.SuffixFilter)
                err := none } st.result
          queue := rest } := by
    unfold searchTask
    rw [hq]
    rfl
  constructor
  · rw [hstep]
    exact lookupA_storeA_self _ _ _
  · intro ex sf
    rw [Search_fst, resultFor, hstep, lookupA_storeA_self]

/-- Witness for C3 (amended) at a concrete failing glob. -/
theorem searchTask_discards_glob_error_witness :
    lookupA "p"
        (searchTask (fun _ _ => some false) (fun _ => ([], some "bad glob"))
          (fun _ => none) 0 1800
          ⟨[], [], [{ Path := "p", ExcludePath := [], SuffixFilter := [] }]⟩).result =
      some { matchList := ([] : List String), err := none } := by
  have h := (searchTask_discards_glob_error (fun _ _ => some false)
    (fun _ => ([], some "bad glob")) (fun _ => none) 0 1800
    ⟨[], [], [{ Path := "p", ExcludePath := [], SuffixFilter := [] }]⟩
    { Path := "p", ExcludePath := [], SuffixFilter := [] } [] rfl).1
  exact h

/-! ## C8 -/

/-- C8: the exclusion stage drops a candidate iff it matches at least one
configured exclusion glob (with no match error); when suffix filters are
configured the suffix stage keeps exactly the candidates whose path ends
with at least one configured suffix, and with none configured it keeps
everything; and composing exclusion a/skip.log with suffix filter .log
over the candidate set a/x.log, a/skip.log, a/y.txt yields exactly
a/x.log. -/
theorem exclude_suffix_composition :
    (∀ (pmatch : String → String → Option Bool) (ms ex : List String) (m : String),
        m ∈ (dropExcludedPath pmatch ms ex).1 ↔
          m ∈ ms ∧ ¬∃ ep ∈ ex, pmatch ep m = some true) ∧
      (∀ (ms sf : List String) (m : String), sf ≠ [] →
        (m ∈ filterSuffix ms sf ↔ m ∈ ms ∧ ∃ sfx ∈ sf, hasSuffix m sfx = true)) ∧
      (∀ ms : List String, filterSuffix ms [] = ms) ∧
      filterSuffix
          (dropExcludedPath globMatchO ["a/x.log", "a/skip.log", "a/y.txt"]
            ["a/skip.log"]).1 [".log"] = ["a/x.log"] := by
  refine ⟨?_, ?_, ?_, by decide⟩
  · intro pmatch ms ex m
    simp [dropExcludedPath, List.mem_filter, List.any_eq_true]
  · intro ms sf m hsf
    have : sf.isEmpty = false := by
      cases sf with
      | nil => exact absurd rfl hsf
      | cons a as => rfl
    simp [filterSuffix, this, List.mem_filter, List.any_eq_true]
  · intro ms
    rfl

/-- Witness for C8's suffix conjunct at a concrete non-empty suffix
filter. -/
theorem exclude_suffix_composition_witness :
    ("a/x.log" ∈ filterSuffix ["a/x.log", "a/y.txt"] [".log"] ↔
      "a/x.log" ∈ ["a/x.log", "a/y.txt"] ∧
        ∃ sfx ∈ [".log"], hasSuffix "a/x.log" sfx = true) :=
  exclude_suffix_composition.2.1 ["a/x.log", "a/y.txt"] [".log"] "a/x.log" (by decide)

/-! ## C7 -/

theorem wrap32_eq_self (x : Int) (h0 : 0 ≤ x) (h1 : x < 2 ^ 31) : wrap32 x = x := by
  unfold wrap32
  have h31 : (2 : Int) ^ 31 = 2147483648 := by norm_num
  have h32 : (2 : Int) ^ 32 = 4294967296 := by norm_num
  rw [h31, h32]
  rw [h31] at h1
  omega

theorem Pick_nonempty (l : List String) (idx : Int) (hl : l ≠ [])
    (_hk : l.length < 2 ^ 31) (h0 : 0 ≤ idx) (h1 : idx + 1 < 2 ^ 31) :
    Pick l idx =
      (l.getD ((idx.toNat + 1) % l.length) "", (((idx.toNat + 1) % l.length : Nat) : Int)) := by
  have hlen : l.length ≠ 0 := by simpa using hl
  have hw : wrap32 (idx + 1) = idx + 1 := wrap32_eq_self _ (by omega) h1
  have hidx : idx + 1 = ((idx.toNat + 1 : Nat) : Int) := by omega
  have hmod : Int.tmod (idx + 1) (Int.ofNat l.length) =
      (((idx.toNat + 1) % l.length : Nat) : Int) := by
    rw [Int.tmod_eq_emod (by omega) (by rw [Int.ofNat_eq_natCast]; exact Int.ofNat_nonneg _),
      hidx, Int.ofNat_eq_natCast]
    push_cast
    rfl
  unfold Pick
  rw [if_neg hlen]
  simp only [hw, hmod, Int.toNat_natCast]

/-- C7: Pick on an empty registry returns the empty string at once without
touching the cursor or indexing the list; and on a non-empty stable
registry (with the cursor in the range the constructor and previous picks
establish) the index Pick stores and uses is within the bounds of the
list, so Pick returns an element of the list. -/
theorem pick_empty_and_bounds (l : List String) (idx : Int) :
    Pick [] idx = ("", idx) ∧
      (l ≠ [] → l.length < 2 ^ 31 → 0 ≤ idx → idx + 1 < 2 ^ 31 →
        0 ≤ (Pick l idx).2 ∧ (Pick l idx).2 < l.length ∧ (Pick l idx).1 ∈ l) := by
  refine ⟨rfl, ?_⟩
  intro hl hk h0 h1
  rw [Pick_nonempty l idx hl hk h0 h1]
  have hlen : 0 < l.length := List.length_pos.mpr hl
  have hlt : (idx.toNat + 1) % l.length < l.length := Nat.mod_lt _ hlen
  refine ⟨by positivity, ?_, ?_⟩
  · show (((idx.toNat + 1) % l.length : Nat) : Int) < (l.length : Int)
    exact_mod_cast hlt
  · show l.getD ((idx.toNat + 1) % l.length) "" ∈ l
    rw [List.getD_eq_getElem l "" hlt]
    exact List.getElem_mem hlt

/-- Witness for C7: on the empty registry Pick returns empty; on a
two-element registry with cursor 5 the stored index is 0, in bounds, and
an element of the list is returned. -/
theorem pick_empty_and_bounds_witness :
    Pick [] 5 = ("", 5) ∧
      (0 ≤ (Pick ["a", "b"] 5).2 ∧ (Pick ["a", "b"] 5).2 < (["a", "b"] : List String).length ∧
        (Pick ["a", "b"] 5).1 ∈ (["a", "b"] : List String)) :=
  ⟨(pick_empty_and_bounds [] 5).1,
    (pick_empty_and_bounds ["a", "b"] 5).2 (by decide) (by norm_num) (by norm_num)
      (by norm_num)⟩

/-! ## C1 -/

theorem countP_mod_range_cycle (k m i : Nat) (hk : 0 < k) (hi : i < k) :
    (List.range k).countP (fun j => (m + j) % k == i) = 1 := by
  have hmk : m % k < k := Nat.mod_lt _ hk
  set j0 := (i + (k - m % k)) % k with hj0def
  have hj0 : j0 < k := Nat.mod_lt _ hk
  have hhit : (m + j0) % k = i := by
    have h1 : (m + j0) % k = (m % k + j0) % k := (Nat.mod_add_mod m k j0).symm
    rw [h1, hj0def, Nat.add_mod_mod]
    have h2 : m % k + (i + (k - m % k)) = i + k := by omega
    rw [h2, Nat.add_mod_right, Nat.mod_eq_of_lt hi]
  have huniq : ∀ j, j < k → ((m + j) % k = i ↔ j = j0) := by
    intro j hj
    constructor
    · intro hmj
      have hmm : (m + j) % k = (m + j0) % k := by rw [hmj, hhit]
      have hjj : j % k = j0 % k := Nat.ModEq.add_left_cancel' m hmm
      rwa [Nat.mod_eq_of_lt hj, Nat.mod_eq_of_lt hj0] at hjj
    · intro h
      rw [h]
      exact hhit
  have hcongr : (List.range k).countP (fun j => (m + j) % k == i) =
      (List.range k).countP (fun j => j == j0) := by
    apply List.countP_congr
    intro x hx
    rw [List.mem_range] at hx
    simp only [beq_iff_eq]
    exact huniq x hx
  rw [hcongr]
  have : (List.range k).countP (fun j => j == j0) = (List.range k).count j0 := rfl
  rw [this]
  exact List.count_eq_one_of_mem (List.nodup_range k) (List.mem_range.mpr hj0)

theorem countP_mod_range_bounds (k i : Nat) (hk : 0 < k) (hi : i < k) :
    ∀ N m, N / k ≤ (List.range N).countP (fun j => (m + j) % k == i) ∧
      (List.range N).countP (fun j => (m + j) % k == i) ≤ (N + k - 1) / k := by
  intro N
  induction N using Nat.strong_induction_on with
  | _ N ih =>
    intro m
    by_cases hN : N < k
    · have hle1 : (List.range N).countP (fun j => (m + j) % k == i) ≤ 1 := by
        have hsplit : List.range k = List.range N ++ (List.range (k - N)).map (fun x => N + x) := by
          rw [← List.range_add]
          congr 1
          omega
        have hcyc := countP_mod_range_cycle k m i hk hi
        rw [hsplit, List.countP_append] at hcyc
        omega
      constructor
      · have h0 : N / k = 0 := Nat.div_eq_of_lt hN
        omega
      · rcases Nat.eq_zero_or_pos N with h0 | h0
        · subst h0
          simp
        · have h1 : 1 ≤ (N + k - 1) / k := (Nat.one_le_div_iff hk).mpr (by omega)
          omega
    · push_neg at hN
      have hsplit : List.range N =
          List.range (N - k) ++ (List.range k).map (fun x => (N - k) + x) := by
        rw [← List.range_add]
        congr 1
        omega
      rw [hsplit, List.countP_append, List.countP_map]
      have hcyc : (List.range k).countP
          ((fun j => (m + j) % k == i) ∘ fun x => (N - k) + x) = 1 := by
        have hc := countP_mod_range_cycle k (m + (N - k)) i hk hi
        rw [← hc]
        apply List.countP_congr
        intro x _
        simp only [Function.comp_apply, ← Nat.add_assoc]
      rw [hcyc]
      have hrec := ih (N - k) (by omega) m
      have hdiv1 : N / k = (N - k) / k + 1 := by
        conv_lhs => rw [show N = (N - k) + k by omega]
        exact Nat.add_div_right _ hk
      have hdiv2 : (N + k - 1) / k = ((N - k) + k - 1) / k + 1 := by
        conv_lhs => rw [show N + k - 1 = ((N - k) + k - 1) + k by omega]
        exact Nat.add_div_right _ hk
      omega

theorem pickSeq_run (l : List String) (hl : l ≠ []) (hk : l.length < 2 ^ 31) :
    ∀ (n : Nat) (c : Int), 0 ≤ c → c + 1 < 2 ^ 31 →
      (pickSeq l c n).1 =
          (List.range n).map (fun j => l.getD ((c.toNat + 1 + j) % l.length) "") ∧
        0 ≤ (pickSeq l c n).2 ∧ (pickSeq l c n).2 + 1 < 2 ^ 31 := by
  have hkpos : 0 < l.length := List.length_pos.mpr hl
  intro n
  induction n with
  | zero =>
    intro c h0 h1
    exact ⟨rfl, h0, h1⟩
  | succ n ih =>
    intro c h0 h1
    have hp := Pick_nonempty l c hl hk h0 h1
    have hmodlt : (c.toNat + 1) % l.length < l.length := Nat.mod_lt _ hkpos
    have h0' : (0 : Int) ≤ (((c.toNat + 1) % l.length : Nat) : Int) := Int.ofNat_nonneg _
    have h1' : (((c.toNat + 1) % l.length : Nat) : Int) + 1 < 2 ^ 31 := by
      have ha : (((c.toNat + 1) % l.length : Nat) : Int) < (l.length : Int) := by
        exact_mod_cast hmodlt
      have hb : (l.length : Int) < (2 : Int) ^ 31 := by exact_mod_cast hk
      have h31 : (2 : Int) ^ 31 = 2147483648 := by norm_num
      rw [h31] at hb ⊢
      omega
    have ih' := ih (((c.toNat + 1) % l.length : Nat) : Int) h0' h1'
    have hrec : pickSeq l c (n + 1) =
        ((Pick l c).1 :: (pickSeq l (Pick l c).2 n).1, (pickSeq l (Pick l c).2 n).2) := rfl
    rw [hrec, hp]
    refine ⟨?_, ih'.2.1, ih'.2.2⟩
    show l.getD ((c.toNat + 1) % l.length) "" ::
        (pickSeq l (((c.toNat + 1) % l.length : Nat) : Int) n).1 =
      (List.range (n + 1)).map (fun j => l.getD ((c.toNat + 1 + j) % l.length) "")
    rw [List.range_succ_eq_map, List.map_cons, ih'.1]
    congr 1
    rw [List.map_map]
    apply List.map_congr_left
    intro j _
    simp only [Function.comp_apply, Int.toNat_natCast, Nat.succ_eq_add_one]
    congr 1
    rw [show (c.toNat + 1) % l.length + 1 + j = (c.toNat + 1) % l.length + (1 + j) by omega,
      Nat.mod_add_mod]
    congr 1
    omega

theorem pickSeq_length (l : List String) : ∀ (n : Nat) (c : Int), (pickSeq l c n).1.length = n := by
  intro n
  induction n with
  | zero => intro c; rfl
  | succ n ih =>
    intro c
    show ((Pick l c).1 :: (pickSeq l (Pick l c).2 n).1).length = n + 1
    rw [List.length_cons, ih]

theorem pickSeq_append (l : List String) (b : Nat) :
    ∀ (a : Nat) (c : Int),
      (pickSeq l c (a + b)).1 = (pickSeq l c a).1 ++ (pickSeq l (pickSeq l c a).2 b).1 ∧
        (pickSeq l c (a + b)).2 = (pickSeq l (pickSeq l c a).2 b).2 := by
  intro a
  induction a with
  | zero =>
    intro c
    rw [Nat.zero_add]
    exact ⟨rfl, rfl⟩
  | succ a ih =>
    intro c
    have hadd : a + 1 + b = (a + b) + 1 := by omega
    rw [hadd]
    have h1 : pickSeq l c ((a + b) + 1) =
        ((Pick l c).1 :: (pickSeq l (Pick l c).2 (a + b)).1,
          (pickSeq l (Pick l c).2 (a + b)).2) := rfl
    have h2 : pickSeq l c (a + 1) =
        ((Pick l c).1 :: (pickSeq l (Pick l c).2 a).1, (pickSeq l (Pick l c).2 a).2) := rfl
    rw [h1, h2]
    have ih' := ih (Pick l c).2
    exact ⟨by rw [List.cons_append, ih'.1], ih'.2⟩

theorem count_map_pickIdx (l : List String) (hnd : l.Nodup) (hkpos : 0 < l.length)
    (m N : Nat) (e : String) (he : e ∈ l) :
    ∃ i, i < l.length ∧
      ((List.range N).map (fun j => l.getD ((m + j) % l.length) "")).count e =
        (List.range N).countP (fun j => (m + j) % l.length == i) := by
  obtain ⟨⟨i, hi⟩, hei⟩ := List.mem_iff_get.mp he
  rw [List.get_eq_getElem] at hei
  refine ⟨i, hi, ?_⟩
  have h1 : ((List.range N).map (fun j => l.getD ((m + j) % l.length) "")).count e =
      (List.range N).countP
        ((fun s => s == e) ∘ fun j => l.getD ((m + j) % l.length) "") := by
    simp only [List.count]
    exact List.countP_map _ _ _
  rw [h1]
  apply List.countP_congr
  intro j _
  simp only [Function.comp_apply, beq_iff_eq]
  have hjlt : (m + j) % l.length < l.length := Nat.mod_lt _ hkpos
  rw [List.getD_eq_getElem l "" hjlt, ← hei]
  exact hnd.getElem_inj_iff

/-- C1 (amended): sequential round-robin fairness of Pick.  Over N
sequential Pick calls against a stable, duplicate-free, non-empty endpoint
list of length k, starting from any cursor in the range the constructor
establishes, every endpoint is returned between floor(N/k) and ceil(N/k)
times, and every window of k consecutive picks returns every endpoint
exactly once — nothing is skipped or duplicated within one full cycle. -/
theorem pick_roundRobin_fair_seq (l : List String) (c : Int) (N : Nat)
    (hl : l ≠ []) (hnd : l.Nodup) (hk : l.length < 2 ^ 31)
    (hc0 : 0 ≤ c) (hc1 : c + 1 < 2 ^ 31) :
    (∀ e ∈ l, N / l.length ≤ (pickSeq l c N).1.count e ∧
        (pickSeq l c N).1.count e ≤ (N + l.length - 1) / l.length) ∧
      ∀ t, t + l.length ≤ N → ∀ e ∈ l,
        (((pickSeq l c N).1.drop t).take l.length).count e = 1 := by
  have hkpos : 0 < l.length := List.length_pos.mpr hl
  constructor
  · intro e he
    have hrun := (pickSeq_run l hl hk N c hc0 hc1).1
    obtain ⟨i, hi, hcount⟩ := count_map_pickIdx l hnd hkpos (c.toNat + 1) N e he
    rw [hrun, hcount]
    exact countP_mod_range_bounds l.length i hkpos hi N (c.toNat + 1)
  · intro t ht e he
    have hN : pickSeq l c N = pickSeq l c (t + (l.length + (N - t - l.length))) := by
      congr 1
      omega
    rw [hN]
    have hsplit1 := pickSeq_append l (l.length + (N - t - l.length)) t c
    rw [hsplit1.1, List.drop_left' (pickSeq_length l t c)]
    set cm := (pickSeq l c t).2 with hcm
    have hsplit2 := pickSeq_append l (N - t - l.length) l.length cm
    rw [hsplit2.1, List.take_left' (pickSeq_length l l.length cm)]
    have hbnd := (pickSeq_run l hl hk t c hc0 hc1).2
    rw [← hcm] at hbnd
    have hrunB := (pickSeq_run l hl hk l.length cm hbnd.1 hbnd.2).1
    obtain ⟨i, hi, hcount⟩ := count_map_pickIdx l hnd hkpos (cm.toNat + 1) l.length e he
    rw [hrunB, hcount]
    exact countP_mod_range_cycle l.length (cm.toNat + 1) i hkpos hi

/-- Witness for C1 (amended) at the concrete list a, b, c, start cursor 5
and seven sequential picks. -/
theorem pick_roundRobin_fair_seq_witness :
    (∀ e ∈ (["a", "b", "c"] : List String),
        7 / (["a", "b", "c"] : List String).length ≤
            (pickSeq ["a", "b", "c"] 5 7).1.count e ∧
          (pickSeq ["a", "b", "c"] 5 7).1.count e ≤
            (7 + (["a", "b", "c"] : List String).length - 1) /
              (["a", "b", "c"] : List String).length) ∧
      ∀ t, t + (["a", "b", "c"] : List String).length ≤ 7 →
        ∀ e ∈ (["a", "b", "c"] : List String),
          (((pickSeq ["a", "b", "c"] 5 7).1.drop t).take
            (["a", "b", "c"] : List String).length).count e = 1 :=
  pick_roundRobin_fair_seq ["a", "b", "c"] 5 7 (by decide) (by decide) (by decide)
    (by decide) (by decide)

/-- C1 counterexample for the concurrent half of the claim: interleaving
the atomic fetch-add and store steps of Pick between two threads on the
stable two-endpoint list a, b — a valid schedule in which thread A
executes one complete Pick and thread B two — produces the
completion-order picks a, b, b.  The window of two consecutive picks b, b
duplicates endpoint b and skips endpoint a, so with concurrent callers a
full cycle of k consecutive picks is neither duplicate-free nor
exhaustive, contradicting the claim. -/
theorem pick_concurrent_unfair_cex :
    actsOfA [ConcAct.addA, .addB, .storeB, .addB, .storeB, .storeA] = [.addA, .storeA] ∧
      actsOfB [ConcAct.addA, .addB, .storeB, .addB, .storeB, .storeA] =
        [.addB, .storeB, .addB, .storeB] ∧
      (concRun ["a", "b"] 0 [ConcAct.addA, .addB, .storeB, .addB, .storeB, .storeA]).outs =
        ["a", "b", "b"] ∧
      ¬ (((concRun ["a", "b"] 0
            [ConcAct.addA, .addB, .storeB, .addB, .storeB, .storeA]).outs.drop 1).take
          2).Nodup := by
  refine ⟨by decide, by decide, by decide, by decide⟩

/-! ## C10 -/

/-- C10 counterexample: the record consisting of just a colon, a hash and
a pipe matches the fixed-field pattern — FindStringSubmatch is non-nil,
with all four groups capturing empty strings — yet both variants return
three empty strings.  So "all three empty exactly when the record does not
match" fails in the only-if direction. -/
theorem parseAccessServerInfo_empty_on_match_cex :
    parseAccessServerInfoV1 ":#|" = ("", "", "") ∧
      parseAccessServerInfoV2 ":#|" = ("", "", "") ∧
      findStringSubmatch ":#|" ≠ none := by
  refine ⟨by decide, by decide, by decide⟩

/-- C10 (amended): the two source variants of parseAccessServerInfo are
extensionally equal — for every input they return the same (ip, port, idc)
triple — and on a record that does not match the fixed-field pattern both
return three empty strings.  (The exactly-when half of the claim fails:
a degenerate matching record can also yield three empty strings.) -/
theorem parseAccessServerInfo_variants_agree :
    (∀ s, parseAccessServerInfoV1 s = parseAccessServerInfoV2 s) ∧
      ∀ s, findStringSubmatch s = none → parseAccessServerInfoV1 s = ("", "", "") := by
  constructor
  · intro s
    unfold parseAccessServerInfoV1 parseAccessServerInfoV2 findStringSubmatch
    rcases h : matchServerInfoFrom s.data with _ | ⟨ip, port, w, idc⟩
    · simp
    · simp [List.enum, List.enumFrom]
  · intro s h
    unfold parseAccessServerInfoV1
    rw [h]
    rfl

/-- Witness for C10 (amended) on a record with no colon, hash or pipe:
both variants agree and return three empty strings. -/
theorem parseAccessServerInfo_variants_agree_witness :
    parseAccessServerInfoV1 "abc" = parseAccessServerInfoV2 "abc" ∧
      parseAccessServerInfoV1 "abc" = ("", "", "") :=
  ⟨parseAccessServerInfo_variants_agree.1 "abc",
    parseAccessServerInfo_variants_agree.2 "abc" (by decide)⟩
